import Mathlib

/-!
Verification of the Clusterm command-intelligence subsystem.

This file gives a shallow embedding, in Lean 4, of the parts of the
repository that the specification talks about:

* the command-line validator (`src/ui/components/command_input.py`,
  class `KubectlHelmValidator`);
* the completion engine (`src/ui/components/command_input.py`,
  class `KubectlHelmCompleter`);
* the live completion cache (`src/core/live_completions.py`,
  classes `CompletionCache` and `LiveCompletionProvider`);
* the context-partitioned command history store
  (`src/core/command_history.py`, classes `CommandEntry` and
  `CommandHistoryManager`).

Python dictionaries are modelled as insertion-ordered association
lists, `defaultdict` auto-vivification as an explicit
lookup-or-insert operation returning the updated map, wall-clock time
as an explicit integer parameter measured in seconds, and the
background fetch of the live cache as a state transformer that takes
the outcome of the fetch as a parameter (`none` standing for a raised
exception).  File I/O is modelled by an explicit `HistoryFile` value
standing for the parsed JSON document.
-/

namespace Clusterm

/-! ## Tokenisation

Python `str.split()` with no argument splits on runs of whitespace and
never produces empty words.  The function is defined structurally over
the character list so that it reduces inside the kernel. -/

/-- Auxiliary splitter: `cur` holds the characters of the word being read,
in reverse order. -/
def splitWordsAux : List Char → List Char → List String
  | [], cur => if cur.isEmpty then [] else [String.mk cur.reverse]
  | c :: cs, cur =>
    if c.isWhitespace then
      if cur.isEmpty then splitWordsAux cs []
      else String.mk cur.reverse :: splitWordsAux cs []
    else splitWordsAux cs (c :: cur)

/-- Models Python `text.split()` (no argument): whitespace-run separated
words, no empty strings. -/
def pySplit (s : String) : List String := splitWordsAux s.data []

/-- Models Python `s.startswith(pre)`. -/
def pyStartsWith (s pre : String) : Bool := pre.data.isPrefixOf s.data

/-! ## Validator (`KubectlHelmValidator`)

`validate` either returns normally (modelled `ok`) or raises a
`ValidationError` carrying a message and a cursor position (modelled
`error`). -/

/-- Result of `KubectlHelmValidator.validate`. -/
inductive ValResult where
  | ok : ValResult
  | error (message : String) (cursorPosition : Nat) : ValResult
deriving DecidableEq, Repr

/-- The validator instance attribute `self.kubectl_commands` (a Python set;
only membership is used, so a list is a faithful model). -/
def kubectlValidCommands : List String :=
  ["get", "describe", "logs", "exec", "apply", "delete", "create",
   "edit", "patch", "scale", "rollout", "top", "port-forward", "cp",
   "auth", "config", "cluster-info", "version", "explain"]

/-- The validator instance attribute `self.helm_commands`. -/
def helmValidCommands : List String :=
  ["install", "upgrade", "uninstall", "list", "status", "history",
   "rollback", "test", "package", "dependency", "template", "get",
   "pull", "push", "search", "show", "verify", "version", "env"]

/-- Models `KubectlHelmValidator._validate_kubectl`.  `textLen` is
`len(document.text)`, used as the cursor position of the
resource-type error. -/
def validateKubectl (words : List String) (textLen : Nat) : ValResult :=
  match words with
  | _w0 :: sub :: rest =>
    if sub ∉ kubectlValidCommands then
      ValResult.error ("Unknown kubectl subcommand: " ++ sub)
        ("kubectl ".length + sub.length)
    else if sub ∈ (["get", "describe", "delete"] : List String) ∧ rest = [] then
      ValResult.error ("\x27" ++ sub ++ "\x27 requires a resource type") textLen
    else ValResult.ok
  | _ => ValResult.ok

/-- Models `KubectlHelmValidator._validate_helm`. -/
def validateHelm (words : List String) : ValResult :=
  match words with
  | _w0 :: sub :: _rest =>
    if sub ∉ helmValidCommands then
      ValResult.error ("Unknown helm subcommand: " ++ sub)
        ("helm ".length + sub.length)
    else ValResult.ok
  | _ => ValResult.ok

/-- Models `KubectlHelmValidator.validate` after tokenisation.  The source first
strips the text and returns on an empty result, then splits it; both
the emptiness test and the split are captured by the word list being
empty, since stripping changes neither the word list nor its
emptiness. -/
def validateWords (words : List String) (textLen : Nat) : ValResult :=
  match words with
  | [] => ValResult.ok
  | w0 :: rest =>
    if w0 = "kubectl" then validateKubectl (w0 :: rest) textLen
    else if w0 = "helm" then validateHelm (w0 :: rest)
    else if rest = [] ∧ w0 ∉ (["kubectl", "helm"] : List String) then
      if ¬ (pyStartsWith "kubectl" w0 ∨ pyStartsWith "helm" w0) then
        ValResult.error "Commands must start with \x27kubectl\x27 or \x27helm\x27"
          w0.length
      else ValResult.ok
    else ValResult.ok

/-- Models `KubectlHelmValidator.validate` on the raw document text. -/
def validate (text : String) : ValResult :=
  validateWords (pySplit text) text.length

/-! ## Completion engine (`KubectlHelmCompleter`)

The completer consults instance state (`self.context`) that is filled
from the history manager and the cluster manager; the embedding passes
that state explicitly as a `CommandContext` value.  Side effects of
`_update_context` and `_fetch_live_resources` only ever change that
state, so modelling the call as a pure function of the state is
faithful. -/

/-- Case-insensitive lowering, Python `s.lower()` restricted to the
per-character mapping (ASCII commands only appear in the sources). -/
def strLower (s : String) : String := String.mk (s.data.map Char.toLower)

/-- Substring occurrence test on character lists. -/
def containsSub : List Char → List Char → Bool
  | [], pat => pat.isEmpty
  | c :: cs, pat => pat.isPrefixOf (c :: cs) || containsSub cs pat

/-- Models Python `pat in s` on strings. -/
def pyInStr (pat s : String) : Bool := containsSub s.data pat.data

/-- Insertion-ordered dictionary lookup, Python `d[k]` / `k in d`. -/
def dictGet {α : Type} (l : List (String × α)) (k : String) : Option α :=
  match l with
  | [] => none
  | (k0, v) :: rest => if k0 = k then some v else dictGet rest k

/-- One value of the completer tables `self.kubectl_commands` /
`self.helm_commands`: a Python dict with optional keys `resources`,
`subcommands`, `flags`.  An absent key and an empty list are
observationally identical here (both yield no completions), so absent
keys are modelled by the empty list. -/
structure CmdInfo where
  resources : List String := []
  subcommands : List String := []
  flags : List String := []
deriving DecidableEq, Repr

/-- Models `KubectlHelmCompleter.__init__`: `self.kubectl_commands`. -/
def kubectlCompleterCommands : List (String × CmdInfo) :=
  [("get",
    { resources := ["pods", "services", "deployments", "configmaps", "secrets",
        "namespaces", "nodes", "persistentvolumes", "pv", "persistentvolumeclaims",
        "pvc", "ingresses", "networkpolicies", "serviceaccounts", "roles",
        "rolebindings", "clusterroles", "clusterrolebindings", "events",
        "endpoints", "componentstatuses", "cs", "daemonsets", "ds",
        "replicasets", "rs", "statefulsets", "sts", "cronjobs", "jobs",
        "horizontalpodautoscalers", "hpa", "poddisruptionbudgets", "pdb"],
      flags := ["-o", "--output", "-l", "--selector", "-n", "--namespace",
        "--all-namespaces", "-A", "--show-labels", "--no-headers", "-w", "--watch"] }),
   ("describe",
    { resources := ["pods", "services", "deployments", "nodes", "persistentvolumes", "pvc"],
      flags := ["-n", "--namespace", "--show-events"] }),
   ("logs",
    { resources := ["pods"],
      flags := ["-f", "--follow", "--previous", "-p", "--tail", "--since",
        "--timestamps", "--all-containers", "-c", "--container"] }),
   ("exec",
    { resources := ["pods"],
      flags := ["-it", "-c", "--container", "--stdin", "--tty"] }),
   ("apply",
    { flags := ["-f", "--filename", "--dry-run", "--validate", "--recursive", "-R"] }),
   ("delete",
    { resources := ["pods", "services", "deployments", "configmaps", "secrets"],
      flags := ["-f", "--filename", "--force", "--grace-period", "--now", "--cascade"] }),
   ("create",
    { resources := ["deployment", "service", "configmap", "secret", "namespace"],
      flags := ["--dry-run", "--save-config", "-f", "--filename"] }),
   ("edit",
    { resources := ["pods", "services", "deployments", "configmaps"],
      flags := ["-n", "--namespace"] }),
   ("scale",
    { resources := ["deployment", "replicaset", "statefulset"],
      flags := ["--replicas", "--timeout"] }),
   ("rollout",
    { subcommands := ["status", "history", "undo", "pause", "resume", "restart"],
      resources := ["deployment", "daemonset", "statefulset"],
      flags := ["--revision", "--timeout"] }),
   ("port-forward",
    { resources := ["pods", "services"],
      flags := ["--address"] }),
   ("top",
    { resources := ["nodes", "pods"],
      flags := ["--containers", "--sort-by", "-l", "--selector"] })]

/-- Models `KubectlHelmCompleter.__init__`: `self.helm_commands`. -/
def helmCompleterCommands : List (String × CmdInfo) :=
  [("install",
    { flags := ["--create-namespace", "-n", "--namespace", "--set", "--values", "-f",
        "--dry-run", "--debug", "--wait", "--timeout", "--version", "--repo"] }),
   ("upgrade",
    { flags := ["--install", "--create-namespace", "-n", "--namespace", "--set",
        "--values", "-f", "--dry-run", "--debug", "--wait", "--timeout",
        "--version", "--reset-values", "--reuse-values"] }),
   ("uninstall",
    { flags := ["-n", "--namespace", "--dry-run", "--keep-history", "--timeout"] }),
   ("list",
    { flags := ["-A", "--all-namespaces", "-n", "--namespace", "--deployed", "--failed",
        "--pending", "--superseded", "--uninstalled", "-q", "--short", "-d", "--date"] }),
   ("status",
    { flags := ["-n", "--namespace", "--revision", "-o", "--output"] }),
   ("history",
    { flags := ["-n", "--namespace", "--max", "-o", "--output"] }),
   ("rollback",
    { flags := ["-n", "--namespace", "--dry-run", "--force", "--no-hooks", "--recreate-pods",
        "--timeout", "--wait"] }),
   ("test",
    { flags := ["-n", "--namespace", "--timeout", "--logs"] }),
   ("get",
    { subcommands := ["all", "hooks", "manifest", "notes", "values"],
      flags := ["-n", "--namespace", "--revision", "-o", "--output"] }),
   ("template",
    { flags := ["--set", "--values", "-f", "--output-dir", "--debug", "--validate"] }),
   ("dependency",
    { subcommands := ["build", "list", "update"],
      flags := ["--verify", "--keyring"] })]

/-- Models `self.output_formats`. -/
def outputFormats : List String :=
  ["json", "yaml", "wide", "name", "custom-columns", "jsonpath", "go-template"]

/-- Models `self.common_selectors`. -/
def commonSelectors : List String :=
  ["app=", "version=", "component=", "tier=", "release="]

/-- The completer state `self.context` (`CommandContext` dataclass), plus
the helm release list obtained from `k8s_manager.get_helm_releases()`
(a raising call is modelled by the empty list, as the source swallows
the exception and yields nothing). -/
structure CommandContext where
  cluster : String := ""
  ns : String := ""
  available_resources : List (String × List String) := []
  recent_commands : List String := []
  command_history : List String := []
  helm_releases : List String := []
deriving DecidableEq, Repr

/-- A `prompt_toolkit` `Completion(text, start_position)`. -/
structure Compl where
  text : String
  start_position : Int
deriving DecidableEq, Repr

/-- Models `KubectlHelmCompleter._get_common_commands`. -/
def getCommonCommands (ctx : CommandContext) : List Compl :=
  let common := ["kubectl get pods", "kubectl get services", "kubectl logs",
                 "helm list", "kubectl get deployments", "kubectl describe pod"]
  let common := (ctx.recent_commands.take 5).foldl
    (fun acc cmd => if cmd ∈ acc then acc else acc ++ [cmd]) common
  (common.take 10).map (fun c => Compl.mk c 0)

/-- Models `KubectlHelmCompleter._complete_kubectl`. -/
def completeKubectl (ctx : CommandContext) (words : List String) : List Compl :=
  if words.length = 1 then
    kubectlCompleterCommands.map (fun p => Compl.mk p.1 0)
  else if words.length = 2 then
    match words with
    | _ :: sub :: _ =>
      match dictGet kubectlCompleterCommands sub with
      | some info => info.resources.map (fun r => Compl.mk r 0)
      | none => []
    | _ => []
  else if words.length = 3 then
    match words with
    | _ :: _sub :: rtype :: _ =>
      match dictGet ctx.available_resources rtype with
      | some names => names.map (fun n => Compl.mk n 0)
      | none => []
    | _ => []
  else
    let sub := (words.drop 1).headD ""
    let current := words.getLastD ""
    if pyStartsWith current "-" then
      match dictGet kubectlCompleterCommands sub with
      | some info =>
        (info.flags.filter (fun f => pyStartsWith f current)).map
          (fun f => Compl.mk f (-(current.length : Int)))
      | none => []
    else if words.length ≥ 2 then
      let prev := words.dropLast.getLastD ""
      let flt := fun (opts : List String) =>
        (opts.filter (fun o => pyStartsWith o current)).map
          (fun o => Compl.mk o (-(current.length : Int)))
      if prev ∈ (["-o", "--output"] : List String) then flt outputFormats
      else if prev ∈ (["-n", "--namespace"] : List String) then
        flt ((dictGet ctx.available_resources "namespaces").getD [])
      else if prev ∈ (["-l", "--selector"] : List String) then flt commonSelectors
      else []
    else []

/-- Models `KubectlHelmCompleter._complete_helm`. -/
def completeHelm (ctx : CommandContext) (words : List String) : List Compl :=
  if words.length = 1 then
    helmCompleterCommands.map (fun p => Compl.mk p.1 0)
  else if words.length = 2 then
    match words with
    | _ :: sub :: _ =>
      if sub ∈ (["status", "history", "upgrade", "uninstall", "rollback", "test"] :
          List String) then
        ctx.helm_releases.map (fun r => Compl.mk r 0)
      else []
    | _ => []
  else
    let sub := (words.drop 1).headD ""
    let current := words.getLastD ""
    if pyStartsWith current "-" ∧ (dictGet helmCompleterCommands sub).isSome then
      ((dictGet helmCompleterCommands sub).getD {}).flags.filter
          (fun f => pyStartsWith f current) |>.map
        (fun f => Compl.mk f (-(current.length : Int)))
    else if words.length ≥ 2 then
      let prev := words.dropLast.getLastD ""
      let flt := fun (opts : List String) =>
        (opts.filter (fun o => pyStartsWith o current)).map
          (fun o => Compl.mk o (-(current.length : Int)))
      if prev ∈ (["-n", "--namespace"] : List String) then
        flt ((dictGet ctx.available_resources "namespaces").getD [])
      else if prev ∈ (["-o", "--output"] : List String) then
        flt ["table", "json", "yaml"]
      else []
    else []

/-- Models `KubectlHelmCompleter._complete_partial_command` (the argument is the
single typed word). -/
def completeOneWordCommand (frag : String) : List Compl :=
  (if pyStartsWith "kubectl" frag then [Compl.mk "kubectl" (-(frag.length : Int))] else []) ++
  (if pyStartsWith "helm" frag then [Compl.mk "helm" (-(frag.length : Int))] else []) ++
  ((kubectlCompleterCommands.filter (fun p => pyStartsWith p.1 frag)).map
    (fun p => Compl.mk ("kubectl " ++ p.1) (-(frag.length : Int)))) ++
  ((helmCompleterCommands.filter (fun p => pyStartsWith p.1 frag)).map
    (fun p => Compl.mk ("helm " ++ p.1) (-(frag.length : Int))))

/-- Models `KubectlHelmCompleter._complete_from_history`. -/
def completeFromHistory (ctx : CommandContext) (currentText : String) : List Compl :=
  (ctx.command_history.filter
      (fun cmd => pyInStr (strLower currentText) (strLower cmd))).map
    (fun cmd => Compl.mk cmd (-(currentText.length : Int)))

/-- Models `KubectlHelmCompleter.get_completions` on the text before the cursor. -/
def getCompletions (ctx : CommandContext) (textBeforeCursor : String) : List Compl :=
  let words := pySplit textBeforeCursor
  match words with
  | [] => getCommonCommands ctx
  | w0 :: _ =>
    if w0 = "kubectl" then completeKubectl ctx words
    else if w0 = "helm" then completeHelm ctx words
    else if words.length = 1 then completeOneWordCommand w0
    else completeFromHistory ctx textBeforeCursor

/-! ## Live completion cache (`src/core/live_completions.py`)

Wall-clock time is made explicit: every operation that reads
`datetime.now()` receives the current time in seconds as an `Int`
parameter.  The cached payload dictionary is abstracted to a type
parameter-free association list of string lists; the claims only need
that it is left untouched by a failed fetch. -/

/-- Models `CompletionCache` dataclass. -/
structure CompletionCache where
  data : List (String × List String) := []
  last_updated : Int := 0
  ttl_seconds : Int := 30
deriving DecidableEq, Repr

namespace CompletionCache

/-- Models `CompletionCache.is_expired`; `now` models `datetime.now()`. -/
def is_expired (c : CompletionCache) (now : Int) : Bool :=
  now - c.last_updated > c.ttl_seconds

/-- Models `CompletionCache.update`. -/
def update (c : CompletionCache) (newData : List (String × List String))
    (now : Int) : CompletionCache :=
  { c with data := newData, last_updated := now }

end CompletionCache

/-- Models `LiveCompletionProvider` mutable state: the cache and the
`self.fetching` flag. -/
structure LiveProvider where
  cache : CompletionCache := {}
  fetching : Bool := false
deriving DecidableEq, Repr

namespace LiveProvider

/-- Models `LiveCompletionProvider._refresh_if_needed` composed with
`_fetch_live_data_async`: when the cache is expired and no fetch is in
flight, the flag is set and a background worker is spawned.  The
returned boolean records whether a worker thread was started. -/
def refresh_if_needed (p : LiveProvider) (now : Int) : LiveProvider × Bool :=
  if p.cache.is_expired now ∧ p.fetching = false then
    ({ p with fetching := true }, true)
  else (p, false)

/-- Models `LiveCompletionProvider._fetch_live_data`, run by the worker at time
`now`.  The network interaction is abstracted by `outcome`: `some f`
means the try-block completed and left `f p.cache.data` in `new_data`
(the block starts from `new_data = self.cache.data.copy()`), `none`
means an exception escaped the block.  On an exception the except
branch backdates `last_updated` by `ttl_seconds - 10`; the finally
branch always clears `fetching`. -/
def fetch_live_data (p : LiveProvider) (now : Int)
    (outcome : Option (List (String × List String) → List (String × List String))) :
    LiveProvider :=
  match outcome with
  | some f => { cache := p.cache.update (f p.cache.data) now, fetching := false }
  | none =>
    { cache := { p.cache with last_updated := now - (p.cache.ttl_seconds - 10) },
      fetching := false }

/-- Models `LiveCompletionProvider.force_refresh`. -/
def force_refresh (p : LiveProvider) (now : Int) : LiveProvider × Bool :=
  refresh_if_needed
    { p with cache := { p.cache with last_updated := now - (p.cache.ttl_seconds + 1) } }
    now

end LiveProvider

/-! ## Command history store (`src/core/command_history.py`)

`commands_by_context` is a `defaultdict(lambda: defaultdict(list))`;
it is modelled as an insertion-ordered association list of clusters,
each holding an insertion-ordered association list of namespaces.
Auto-vivification (a read of a missing key inserting the default) is
modelled by `ddGet`, which returns the value together with the
possibly-grown dictionary.  `datetime.now().isoformat()` is passed in
as an explicit `now : String` argument. -/

/-- Models `CommandEntry` dataclass.  The Python field `namespace` is spelt `ns`
here because `namespace` is a Lean keyword. -/
structure CommandEntry where
  command : String
  command_type : String
  description : String
  cluster : String
  ns : String
  usage_count : Int := 0
  last_used : Option String := none
  tags : List String := []
deriving DecidableEq, Repr

/-- Insertion-ordered dictionary write, Python `d[k] = v`: an existing
key keeps its position, a new key is appended. -/
def dictSet {α : Type} (l : List (String × α)) (k : String) (v : α) :
    List (String × α) :=
  match l with
  | [] => [(k, v)]
  | (k0, v0) :: rest =>
    if k0 = k then (k0, v) :: rest else (k0, v0) :: dictSet rest k v

/-- Models `defaultdict` read `d[k]`: returns the stored value, or inserts and
returns `dflt` when the key is missing. -/
def ddGet {α : Type} (l : List (String × α)) (k : String) (dflt : α) :
    α × List (String × α) :=
  match dictGet l k with
  | some v => (v, l)
  | none => (dflt, l ++ [(k, dflt)])

/-- The in-memory shape of `self.commands_by_context`. -/
abbrev CtxMap : Type := List (String × List (String × List CommandEntry))

/-- The read `self.commands_by_context[cluster][ns]`: vivifies both
levels and returns the command list together with the updated map. -/
def ctxGet (m : CtxMap) (cluster ns : String) : List CommandEntry × CtxMap :=
  let inner := ddGet m cluster []
  let cmds := ddGet inner.1 ns []
  (cmds.1, dictSet inner.2 cluster cmds.2)

/-- The write `self.commands_by_context[cluster][ns] = v` (outer
`defaultdict` read, inner dictionary write). -/
def ctxSet (m : CtxMap) (cluster ns : String) (v : List CommandEntry) : CtxMap :=
  let inner := ddGet m cluster []
  dictSet inner.2 cluster (dictSet inner.1 ns v)

/-- In-place append `self.commands_by_context[c.cluster][c.ns].append(c)`. -/
def ctxAppend (m : CtxMap) (cluster ns : String) (e : CommandEntry) : CtxMap :=
  let r := ctxGet m cluster ns
  ctxSet r.2 cluster ns (r.1 ++ [e])

/-- Pure nested lookup (an observation helper, not an operation of the
source): `some` exactly when both levels hold the key.  Unlike
`ctxGet` it does not vivify. -/
def dictGet2 (m : CtxMap) (cluster ns : String) : Option (List CommandEntry) :=
  (dictGet m cluster).bind (fun inner => dictGet inner ns)

/-- Pure observation helper: the list stored under a context, the empty
list when the partition was never materialised. -/
def ctxCmds (m : CtxMap) (cluster ns : String) : List CommandEntry :=
  (dictGet2 m cluster ns).getD []

/-- Models `CommandHistoryManager` mutable state (the logger and the config
directory carry no observable state). -/
structure HistoryManager where
  commands_by_context : CtxMap := []
  current_cluster : String := "default"
  current_namespace : String := "default"
deriving DecidableEq, Repr

/-- Python `s.strip()`. -/
def pyStrip (s : String) : String :=
  String.mk (((s.data.dropWhile Char.isWhitespace).reverse.dropWhile
    Char.isWhitespace).reverse)

/-- Python `x or default` on an optional string argument: `None` and the
empty string both fall back to the default. -/
def pyOr (v : Option String) (dflt : String) : String :=
  match v with
  | some s => if s = "" then dflt else s
  | none => dflt

/-- Models `CommandHistoryManager._detect_command_type`. -/
def detectCommandType (command : String) : String :=
  let cl := pyStrip (strLower command)
  if pyStartsWith cl "kubectl" then "kubectl"
  else if pyStartsWith cl "helm" then "helm"
  else if (["get pods", "get services", "describe", "logs", "exec"] : List String).any
      (fun k => pyInStr k cl) then "kubectl"
  else if (["install", "upgrade", "list", "status", "uninstall"] : List String).any
      (fun k => pyInStr k cl) then "helm"
  else "kubectl"

/-- Replace the first entry whose `command` field matches, leaving the
rest alone — the in-place mutation of the object returned by
`_find_command`. -/
def updateFirst (l : List CommandEntry) (command : String)
    (f : CommandEntry → CommandEntry) : List CommandEntry :=
  match l with
  | [] => []
  | c :: rest =>
    if c.command = command then f c :: rest else c :: updateFirst rest command f

/-- The in-place mutation `add_command` applies to an already-present
entry: increment `usage_count`, refresh `last_used`, fill the
description only when it was empty, and extend the tag list with the
supplied tags that are not yet present (the filter is evaluated
against the tag list as it was before the extension). -/
def reAddUpdate (now description : String) (tags : List String)
    (c : CommandEntry) : CommandEntry :=
  { c with
    usage_count := c.usage_count + 1,
    last_used := some now,
    description :=
      if description ≠ "" ∧ c.description = "" then description
      else c.description,
    tags := c.tags ++ tags.filter (fun t => t ∉ c.tags) }

/-- The fresh `CommandEntry(...)` built by `add_command` when the text is
not yet present in the context. -/
def newEntry (now command commandType description : String) (tags : List String)
    (cluster ns : String) : CommandEntry :=
  { command := command, command_type := commandType, description := description,
    cluster := cluster, ns := ns, usage_count := 1, last_used := some now,
    tags := tags }

/-- The new content of the context partition after `add_command`. -/
def addResult (cmds : List CommandEntry) (now command commandType description : String)
    (tags : List String) (cluster ns : String) : List CommandEntry :=
  if (cmds.find? (fun c => c.command = command)).isSome then
    updateFirst cmds command (reAddUpdate now description tags)
  else
    cmds ++ [newEntry now command commandType description tags cluster ns]

namespace HistoryManager

/-- Models `CommandHistoryManager.set_context`. -/
def setContext (m : HistoryManager) (cluster ns : String) : HistoryManager :=
  { m with
    current_cluster := if cluster = "" then "default" else cluster,
    current_namespace := if ns = "" then "default" else ns }

/-- Models `CommandHistoryManager.add_command`.  `now` stands for
`datetime.now().isoformat()`; the final `_save_history()` performs
file I/O only and does not change the in-memory state. -/
def addCommand (m : HistoryManager) (now command description : String)
    (tags : List String) (cluster ns : Option String) : HistoryManager :=
  let contextCluster := pyOr cluster m.current_cluster
  let contextNs := pyOr ns m.current_namespace
  let commandType := detectCommandType command
  let r := ctxGet m.commands_by_context contextCluster contextNs
  { m with
    commands_by_context :=
      ctxSet r.2 contextCluster contextNs
        (addResult r.1 now command commandType description tags
          contextCluster contextNs) }

/-- Models `CommandHistoryManager.get_current_context_commands`: returns a copy
of the current partition and (through `defaultdict` vivification) the
possibly-grown store. -/
def getCurrentContextCommands (m : HistoryManager) :
    List CommandEntry × HistoryManager :=
  let r := ctxGet m.commands_by_context m.current_cluster m.current_namespace
  (r.1, { m with commands_by_context := r.2 })

/-- Stable insertion of one element into a list already sorted by
`usage_count` descending, placing it before elements with the same
count that originally came later. -/
def insertUsageDesc (x : CommandEntry) : List CommandEntry → List CommandEntry
  | [] => [x]
  | y :: ys =>
    if y.usage_count > x.usage_count then y :: insertUsageDesc x ys
    else x :: y :: ys

/-- Python `sorted(l, key=lambda x: x.usage_count, reverse=True)`: a
stable descending sort. -/
def sortUsageDesc : List CommandEntry → List CommandEntry
  | [] => []
  | x :: xs => insertUsageDesc x (sortUsageDesc xs)

/-- Models `CommandHistoryManager.get_frequent_commands`. -/
def getFrequentCommands (m : HistoryManager) (limit : Nat) :
    List CommandEntry × HistoryManager :=
  let r := getCurrentContextCommands m
  ((sortUsageDesc r.1).take limit, r.2)

/-- Stable insertion for the `last_used` descending sort (the key is
`x.last_used or ""`, compared as Python compares strings). -/
def insertLastUsedDesc (x : CommandEntry) : List CommandEntry → List CommandEntry
  | [] => [x]
  | y :: ys =>
    if (x.last_used.getD "") < (y.last_used.getD "") then
      y :: insertLastUsedDesc x ys
    else x :: y :: ys

/-- Python `sorted(l, key=lambda x: x.last_used or "", reverse=True)`. -/
def sortLastUsedDesc : List CommandEntry → List CommandEntry
  | [] => []
  | x :: xs => insertLastUsedDesc x (sortLastUsedDesc xs)

/-- Models `CommandHistoryManager.get_recent_commands`. -/
def getRecentCommands (m : HistoryManager) (limit : Nat) :
    List CommandEntry × HistoryManager :=
  let r := getCurrentContextCommands m
  ((sortLastUsedDesc (r.1.filter (fun c => c.last_used.isSome))).take limit, r.2)

/-- Models `CommandHistoryManager.get_commands_by_type`. -/
def getCommandsByType (m : HistoryManager) (commandType : String) :
    List CommandEntry × HistoryManager :=
  let r := getCurrentContextCommands m
  (r.1.filter (fun c => c.command_type = commandType), r.2)

/-- Models `CommandHistoryManager.search_commands`. -/
def searchCommands (m : HistoryManager) (query : String) :
    List CommandEntry × HistoryManager :=
  let ql := strLower query
  let r := getCurrentContextCommands m
  (r.1.filter (fun cmd =>
      pyInStr ql (strLower cmd.command) ||
      pyInStr ql (strLower cmd.description) ||
      cmd.tags.any (fun t => pyInStr ql (strLower t))), r.2)

/-- Models `CommandHistoryManager.delete_command`. -/
def deleteCommand (m : HistoryManager) (command : String) : HistoryManager :=
  let r := ctxGet m.commands_by_context m.current_cluster m.current_namespace
  { m with
    commands_by_context :=
      ctxSet r.2 m.current_cluster m.current_namespace
        (r.1.filter (fun c => c.command ≠ command)) }

/-- Models `CommandHistoryManager.get_all_commands`. -/
def getAllCommands (m : HistoryManager) : List CommandEntry × HistoryManager :=
  getCurrentContextCommands m

/-- Models `CommandHistoryManager.get_context_summary`. -/
def getContextSummary (m : HistoryManager) :
    List (String × List (String × Nat)) :=
  m.commands_by_context.map (fun p => (p.1, p.2.map (fun q => (q.1, q.2.length))))

end HistoryManager

/-- Lookup in the nested summary returned by `getContextSummary`. -/
def summaryLookup (s : List (String × List (String × Nat))) (cluster ns : String) :
    Option Nat :=
  (dictGet s cluster).bind (fun inner => dictGet inner ns)

/-- Every entry stored anywhere in a context map. -/
def allEntriesC (m : CtxMap) : List CommandEntry :=
  m.flatMap (fun p => p.2.flatMap Prod.snd)

/-- Every entry stored anywhere in the manager. -/
def allEntries (m : HistoryManager) : List CommandEntry :=
  allEntriesC m.commands_by_context

/-! ## Persistence (`_load_history` / `_save_history`)

A parsed backing file is a `HistoryFile`: the dictionary under the key
`commands_by_context` and the legacy list under the key `commands`
(`data.get` defaults give `{}` and `[]` for absent keys).  A JSON
object for one command is an `EntryData` whose `none` fields stand for
absent keys; `CommandEntry(**cmd)` fails with a `TypeError` (modelled
`none`) when a field without a dataclass default is missing, and
otherwise applies the dataclass defaults `usage_count=0`,
`last_used=None`, `tags=None → []`. -/

/-- A JSON object for one command as stored on disk. -/
structure EntryData where
  command : Option String := none
  command_type : Option String := none
  description : Option String := none
  cluster : Option String := none
  ns : Option String := none
  usage_count : Option Int := none
  last_used : Option String := none
  tags : Option (List String) := none
deriving DecidableEq, Repr

/-- Models `CommandEntry(**cmd_data)`: `none` when a field without a dataclass
default is missing (the `TypeError` case), otherwise the record with
the defaults applied. -/
def mkEntry (d : EntryData) : Option CommandEntry := do
  let c ← d.command
  let t ← d.command_type
  let de ← d.description
  let cl ← d.cluster
  let n ← d.ns
  pure { command := c, command_type := t, description := de, cluster := cl,
         ns := n, usage_count := d.usage_count.getD 0,
         last_used := d.last_used, tags := d.tags.getD [] }

/-- Models `dataclasses.asdict`: every field becomes a present key. -/
def entryToData (e : CommandEntry) : EntryData :=
  { command := some e.command, command_type := some e.command_type,
    description := some e.description, cluster := some e.cluster,
    ns := some e.ns, usage_count := some e.usage_count,
    last_used := e.last_used, tags := some e.tags }

/-- The parsed JSON document of the backing file. -/
structure HistoryFile where
  commands_by_context : List (String × List (String × List EntryData)) := []
  commands : List EntryData := []
deriving DecidableEq, Repr

/-- The list comprehension `[CommandEntry(**cmd) for cmd in commands]`:
`none` as soon as one element raises. -/
def mapMEntries : List EntryData → Option (List CommandEntry)
  | [] => some []
  | d :: rest => do
    let e ← mkEntry d
    let es ← mapMEntries rest
    pure (e :: es)

/-- Inner loop of the first phase of `_load_history`: for one cluster,
each namespace list is rebuilt and written with
`self.commands_by_context[cluster][namespace] = [CommandEntry(**cmd) …]`. -/
def loadPartitionedInner (cluster : String) (acc : CtxMap) :
    List (String × List EntryData) → Option CtxMap
  | [] => some acc
  | q :: rest => do
    let es ← mapMEntries q.2
    loadPartitionedInner cluster (ctxSet acc cluster q.1 es) rest

/-- Outer loop of the first phase of `_load_history`. -/
def loadPartitionedOuter (acc : CtxMap) :
    List (String × List (String × List EntryData)) → Option CtxMap
  | [] => some acc
  | p :: rest => do
    let acc2 ← loadPartitionedInner p.1 acc p.2
    loadPartitionedOuter acc2 rest

/-- First phase of `_load_history`, starting from the fresh empty store. -/
def loadPartitioned (l : List (String × List (String × List EntryData))) :
    Option CtxMap :=
  loadPartitionedOuter [] l

/-- The legacy-migration defaulting:
`if "cluster" not in cmd_data: cmd_data["cluster"] = "default"`, and
likewise for the namespace. -/
def legacyWithDefaults (d : EntryData) : EntryData :=
  { d with cluster := some (d.cluster.getD "default"),
           ns := some (d.ns.getD "default") }

/-- Second loop of `_load_history`: legacy commands are appended with
`self.commands_by_context[cmd.cluster][cmd.namespace].append(cmd)`. -/
def loadLegacy (base : CtxMap) : List EntryData → Option CtxMap
  | [] => some base
  | d :: rest => do
    let e ← mkEntry (legacyWithDefaults d)
    loadLegacy (ctxAppend base e.cluster e.ns e) rest

/-- Models `CommandHistoryManager._load_history` on a present, syntactically
valid JSON file.  Any `TypeError` raised while rebuilding entries is
caught by the surrounding `except`, which resets the store to a fresh
empty `defaultdict`. -/
def loadHistory (f : HistoryFile) : HistoryManager :=
  match (do loadLegacy (← loadPartitioned f.commands_by_context) f.commands :
      Option CtxMap) with
  | some cbc => { commands_by_context := cbc }
  | none => {}

/-- Models `CommandHistoryManager._save_history`: the written document holds the
partitioned table only (the legacy `commands` key is never written). -/
def saveHistory (m : HistoryManager) : HistoryFile :=
  { commands_by_context :=
      m.commands_by_context.map
        (fun p => (p.1, p.2.map (fun q => (q.1, q.2.map entryToData)))),
    commands := [] }

/-- Well-formedness of the nested store: keys are unique at both levels
(Python dictionaries cannot repeat keys) and no cluster holds an empty
namespace dictionary (every access path that materialises a cluster
key immediately materialises a namespace key under it). -/
def wfCtxMap (m : CtxMap) : Prop :=
  (m.map Prod.fst).Nodup ∧ ∀ p ∈ m, (p.2.map Prod.fst).Nodup ∧ p.2 ≠ []

instance : DecidablePred wfCtxMap := fun m => by
  unfold wfCtxMap; infer_instance

/-! ## Dictionary lemmas -/

theorem dictGet_dictSet_self {α : Type} (l : List (String × α)) (k : String) (v : α) :
    dictGet (dictSet l k v) k = some v := by
  induction l with
  | nil => simp [dictSet, dictGet]
  | cons p rest ih =>
    obtain ⟨k0, v0⟩ := p
    by_cases h : k0 = k
    · simp [dictSet, dictGet, h]
    · simp [dictSet, dictGet, h, ih]

theorem dictGet_dictSet_ne {α : Type} (l : List (String × α)) {k k' : String} (v : α)
    (h : k' ≠ k) : dictGet (dictSet l k v) k' = dictGet l k' := by
  induction l with
  | nil => simp [dictSet, dictGet, Ne.symm h]
  | cons p rest ih =>
    obtain ⟨k0, v0⟩ := p
    by_cases h0 : k0 = k
    · subst h0
      simp [dictSet, dictGet, Ne.symm h]
    · simp [dictSet, dictGet, h0, ih]

theorem dictGet_append_of_none {α : Type} {l1 : List (String × α)} (l2 : List (String × α))
    {k : String} (h : dictGet l1 k = none) :
    dictGet (l1 ++ l2) k = dictGet l2 k := by
  induction l1 with
  | nil => rfl
  | cons p rest ih =>
    obtain ⟨k0, v0⟩ := p
    by_cases h0 : k0 = k
    · simp [dictGet, h0] at h
    · simp only [dictGet, h0] at h
      simp only [List.cons_append, dictGet, h0, if_false]
      exact ih (by simpa using h)

theorem dictGet_append_of_some {α : Type} {l1 : List (String × α)} (l2 : List (String × α))
    {k : String} {v : α} (h : dictGet l1 k = some v) :
    dictGet (l1 ++ l2) k = some v := by
  induction l1 with
  | nil => simp [dictGet] at h
  | cons p rest ih =>
    obtain ⟨k0, v0⟩ := p
    by_cases h0 : k0 = k
    · simp [dictGet, h0] at h ⊢
      simpa using h
    · simp [dictGet, h0] at h ⊢
      exact ih h

theorem ddGet_fst {α : Type} (l : List (String × α)) (k : String) (d : α) :
    (ddGet l k d).1 = (dictGet l k).getD d := by
  unfold ddGet
  cases h : dictGet l k <;> simp [h]

theorem dictGet_ddGet_self {α : Type} (l : List (String × α)) (k : String) (d : α) :
    dictGet (ddGet l k d).2 k = some ((dictGet l k).getD d) := by
  unfold ddGet
  cases h : dictGet l k with
  | none =>
    simp only [Option.getD_none]
    rw [dictGet_append_of_none _ h]
    simp [dictGet]
  | some v => simpa using h

theorem dictGet_ddGet_ne {α : Type} (l : List (String × α)) {k k' : String} (d : α)
    (h : k' ≠ k) : dictGet (ddGet l k d).2 k' = dictGet l k' := by
  unfold ddGet
  cases h0 : dictGet l k with
  | none =>
    cases h1 : dictGet l k' with
    | none =>
      rw [dictGet_append_of_none _ h1]
      simp [dictGet, Ne.symm h]
    | some v =>
      rw [dictGet_append_of_some _ h1]
  | some v => rfl

theorem dictSet_eq_self_of_dictGet {α : Type} {l : List (String × α)} {k : String}
    {v : α} (h : dictGet l k = some v) : dictSet l k v = l := by
  induction l with
  | nil => simp [dictGet] at h
  | cons p rest ih =>
    obtain ⟨k0, v0⟩ := p
    by_cases h0 : k0 = k
    · subst h0
      simp [dictGet] at h
      simp [dictSet, h]
    · simp [dictGet, h0] at h
      simp [dictSet, h0, ih h]

theorem dictSet_append_last {α : Type} {l : List (String × α)} {k : String} (x v : α)
    (h : dictGet l k = none) : dictSet (l ++ [(k, x)]) k v = l ++ [(k, v)] := by
  induction l with
  | nil => simp [dictSet]
  | cons p rest ih =>
    obtain ⟨k0, v0⟩ := p
    by_cases h0 : k0 = k
    · simp [dictGet, h0] at h
    · simp only [dictGet, h0, if_false] at h
      simp [dictSet, h0, ih h]

theorem mem_dictSet {α : Type} {x : String × α} {l : List (String × α)} {k : String}
    {v : α} (h : x ∈ dictSet l k v) : x = (k, v) ∨ x ∈ l := by
  induction l with
  | nil => simpa [dictSet] using h
  | cons p rest ih =>
    obtain ⟨k0, v0⟩ := p
    by_cases h0 : k0 = k
    · subst h0
      simp only [dictSet, if_pos rfl] at h
      rcases List.mem_cons.mp h with ha | hb
      · exact Or.inl ha
      · exact Or.inr (List.mem_cons_of_mem _ hb)
    · simp only [dictSet, if_neg h0] at h
      rcases List.mem_cons.mp h with ha | hb
      · exact Or.inr (by simp [ha])
      · rcases ih hb with h1 | h1
        · exact Or.inl h1
        · exact Or.inr (List.mem_cons_of_mem _ h1)

theorem mem_ddGet_snd {α : Type} {x : String × α} {l : List (String × α)} {k : String}
    {d : α} (h : x ∈ (ddGet l k d).2) : x ∈ l ∨ x = (k, d) := by
  unfold ddGet at h
  cases h0 : dictGet l k with
  | none =>
    rw [h0] at h
    simpa using h
  | some v =>
    rw [h0] at h
    exact Or.inl h

theorem dictGet_mem {α : Type} {l : List (String × α)} {k : String} {v : α}
    (h : dictGet l k = some v) : (k, v) ∈ l := by
  induction l with
  | nil => simp [dictGet] at h
  | cons p rest ih =>
    obtain ⟨k0, v0⟩ := p
    by_cases h0 : k0 = k
    · simp only [dictGet, h0, if_true, Option.some_inj] at h
      simp [h0, h]
    · simp only [dictGet, h0, if_false] at h
      exact List.mem_cons_of_mem _ (ih h)

/-! ## Context-map lemmas -/

theorem ctxGet_fst (m : CtxMap) (c n : String) :
    (ctxGet m c n).1 = ctxCmds m c n := by
  unfold ctxGet ctxCmds dictGet2
  simp only [ddGet_fst]
  cases h : dictGet m c <;> simp [h, dictGet]

theorem dictGet2_ctxGet_snd (m : CtxMap) (c n c' n' : String) :
    dictGet2 (ctxGet m c n).2 c' n' =
      if c' = c ∧ n' = n then some (ctxCmds m c n) else dictGet2 m c' n' := by
  unfold ctxGet dictGet2
  by_cases hc : c' = c
  · subst hc
    rw [dictGet_dictSet_self]
    by_cases hn : n' = n
    · subst hn
      rw [if_pos (⟨rfl, rfl⟩ : c' = c' ∧ n' = n')]
      simp only [Option.some_bind]
      rw [dictGet_ddGet_self, ddGet_fst]
      unfold ctxCmds dictGet2
      cases h : dictGet m c' <;> simp [h, dictGet]
    · rw [if_neg (fun hx : c' = c' ∧ n' = n => hn hx.2)]
      simp only [Option.some_bind]
      rw [dictGet_ddGet_ne _ _ hn, ddGet_fst]
      cases h : dictGet m c' <;> simp [h, dictGet]
  · rw [if_neg (fun hx : c' = c ∧ n' = n => hc hx.1)]
    rw [dictGet_dictSet_ne _ _ hc, dictGet_ddGet_ne _ _ hc]

theorem ctxCmds_ctxGet_snd (m : CtxMap) (c n c' n' : String) :
    ctxCmds (ctxGet m c n).2 c' n' = ctxCmds m c' n' := by
  unfold ctxCmds
  rw [dictGet2_ctxGet_snd]
  by_cases h : c' = c ∧ n' = n
  · obtain ⟨h1, h2⟩ := h
    subst h1; subst h2
    simp [ctxCmds]
  · simp [h]

theorem dictGet2_ctxSet (m : CtxMap) (c n : String) (v : List CommandEntry)
    (c' n' : String) :
    dictGet2 (ctxSet m c n v) c' n' =
      if c' = c ∧ n' = n then some v else dictGet2 m c' n' := by
  unfold ctxSet dictGet2
  by_cases hc : c' = c
  · subst hc
    rw [dictGet_dictSet_self]
    by_cases hn : n' = n
    · subst hn
      rw [if_pos (⟨rfl, rfl⟩ : c' = c' ∧ n' = n')]
      simp only [Option.some_bind]
      rw [dictGet_dictSet_self]
    · rw [if_neg (fun hx : c' = c' ∧ n' = n => hn hx.2)]
      simp only [Option.some_bind]
      rw [dictGet_dictSet_ne _ _ hn, ddGet_fst]
      cases h : dictGet m c' <;> simp [h, dictGet]
  · rw [if_neg (fun hx : c' = c ∧ n' = n => hc hx.1)]
    rw [dictGet_dictSet_ne _ _ hc, dictGet_ddGet_ne _ _ hc]

theorem ctxCmds_ctxSet (m : CtxMap) (c n : String) (v : List CommandEntry)
    (c' n' : String) :
    ctxCmds (ctxSet m c n v) c' n' =
      if c' = c ∧ n' = n then v else ctxCmds m c' n' := by
  unfold ctxCmds
  rw [dictGet2_ctxSet]
  by_cases h : c' = c ∧ n' = n
  · obtain ⟨h1, h2⟩ := h
    subst h1; subst h2
    simp
  · simp [h]

theorem ctxCmds_addCommand (m : HistoryManager) (now command description : String)
    (tags : List String) (cluster ns : Option String) (c' n' : String) :
    ctxCmds (m.addCommand now command description tags cluster ns).commands_by_context
        c' n' =
      if c' = pyOr cluster m.current_cluster ∧ n' = pyOr ns m.current_namespace then
        addResult
          (ctxCmds m.commands_by_context (pyOr cluster m.current_cluster)
            (pyOr ns m.current_namespace))
          now command (detectCommandType command) description tags
          (pyOr cluster m.current_cluster) (pyOr ns m.current_namespace)
      else ctxCmds m.commands_by_context c' n' := by
  simp only [HistoryManager.addCommand]
  rw [ctxCmds_ctxSet]
  by_cases h : c' = pyOr cluster m.current_cluster ∧ n' = pyOr ns m.current_namespace
  · simp [h, ctxGet_fst]
  · simp [h, ctxCmds_ctxGet_snd]

theorem dictGet_map_structure {α β : Type} (f : α → β) (l : List (String × α))
    (k : String) :
    dictGet (l.map (fun p => (p.1, f p.2))) k = (dictGet l k).map f := by
  induction l with
  | nil => rfl
  | cons p rest ih =>
    obtain ⟨k0, v0⟩ := p
    by_cases h0 : k0 = k <;> simp [dictGet, h0, ih]

theorem summaryLookup_getContextSummary (m : HistoryManager) (c n : String) :
    summaryLookup (HistoryManager.getContextSummary m) c n =
      (dictGet2 m.commands_by_context c n).map List.length := by
  unfold summaryLookup HistoryManager.getContextSummary dictGet2
  rw [dictGet_map_structure]
  cases h : dictGet m.commands_by_context c <;>
    simp [h, dictGet_map_structure]

/-! ## C1: validator boundary -/

/-- C1 (amended): `validate` returns ok for empty input; errors on a single
word that is not a prefix of kubectl or helm; for a known tool name errors
when the second word is outside that family's verb set; for the kubectl
verbs get/describe/delete errors when no third word is present, while helm
verbs carry no resource requirement; accepts "kubectl get pods"; and a
two-or-more-word input whose first word is an unknown tool passes
validation unchanged (the single-word unknown-tool check does not apply). -/
theorem validator_boundary :
    (validate "" = ValResult.ok) ∧
    (∀ (w : String) (tl : Nat),
      pyStartsWith "kubectl" w = false → pyStartsWith "helm" w = false →
      validateWords [w] tl =
        ValResult.error "Commands must start with \x27kubectl\x27 or \x27helm\x27"
          w.length) ∧
    (∀ (sub : String) (rest : List String) (tl : Nat),
      sub ∉ kubectlValidCommands →
      validateWords ("kubectl" :: sub :: rest) tl =
        ValResult.error ("Unknown kubectl subcommand: " ++ sub)
          ("kubectl ".length + sub.length)) ∧
    (∀ (sub : String) (rest : List String) (tl : Nat),
      sub ∉ helmValidCommands →
      validateWords ("helm" :: sub :: rest) tl =
        ValResult.error ("Unknown helm subcommand: " ++ sub)
          ("helm ".length + sub.length)) ∧
    (∀ (sub : String) (tl : Nat),
      sub ∈ (["get", "describe", "delete"] : List String) →
      validateWords ["kubectl", sub] tl =
        ValResult.error ("\x27" ++ sub ++ "\x27 requires a resource type") tl) ∧
    (validate "kubectl get pods" = ValResult.ok) ∧
    (∀ (w : String) (rest : List String) (tl : Nat),
      rest ≠ [] → w ≠ "kubectl" → w ≠ "helm" →
      validateWords (w :: rest) tl = ValResult.ok) ∧
    (∀ (sub : String) (tl : Nat),
      sub ∈ helmValidCommands →
      validateWords ["helm", sub] tl = ValResult.ok) := by
  refine ⟨by decide, ?_, ?_, ?_, ?_, by decide, ?_, ?_⟩
  · intro w tl h1 h2
    have hw1 : w ≠ "kubectl" := by rintro rfl; exact absurd h1 (by decide)
    have hw2 : w ≠ "helm" := by rintro rfl; exact absurd h2 (by decide)
    simp [validateWords, hw1, hw2, h1, h2]
  · intro sub rest tl h
    simp [validateWords, validateKubectl, h]
  · intro sub rest tl h
    simp [validateWords, validateHelm, h]
  · intro sub tl h
    fin_cases h <;> rfl
  · intro w rest tl hrest hw1 hw2
    cases rest with
    | nil => exact absurd rfl hrest
    | cons r rs => simp [validateWords, hw1, hw2]
  · intro sub tl h
    simp [validateWords, validateHelm, h]

/-- C1 counterexample: the claim demands an error for every two-or-more
word input whose first word is an unknown tool, and an error for the
resource-requiring verbs of either family; the code accepts both
"randomtool foo" and "helm get" without raising. -/
theorem validator_boundary_counterexample :
    validate "randomtool foo" = ValResult.ok ∧
    validate "helm get" = ValResult.ok := by decide

/-- Witness for `validator_boundary` at concrete inputs. -/
theorem validator_boundary_witness :
    validateWords ["xyz"] 3 =
      ValResult.error "Commands must start with \x27kubectl\x27 or \x27helm\x27" 3 ∧
    validateWords ["kubectl", "frobnicate"] 18 =
      ValResult.error ("Unknown kubectl subcommand: " ++ "frobnicate")
        ("kubectl ".length + "frobnicate".length) ∧
    validateWords ["helm", "frobnicate"] 15 =
      ValResult.error ("Unknown helm subcommand: " ++ "frobnicate")
        ("helm ".length + "frobnicate".length) ∧
    validateWords ["kubectl", "get"] 11 =
      ValResult.error ("\x27" ++ "get" ++ "\x27 requires a resource type") 11 ∧
    validateWords ["randomtool", "foo"] 14 = ValResult.ok ∧
    validateWords ["helm", "list"] 9 = ValResult.ok :=
  ⟨validator_boundary.2.1 "xyz" 3 (by decide) (by decide),
   validator_boundary.2.2.1 "frobnicate" [] 18 (by decide),
   validator_boundary.2.2.2.1 "frobnicate" [] 15 (by decide),
   validator_boundary.2.2.2.2.1 "get" 11 (by decide),
   validator_boundary.2.2.2.2.2.2.1 "randomtool" ["foo"] 14 (by decide) (by decide)
     (by decide),
   validator_boundary.2.2.2.2.2.2.2 "list" 9 (by decide)⟩

/-! ## C2: cache throttling after a failed fetch -/

/-- C2 (amended): a failed fetch at time `t0` leaves the cached entries
untouched, and `is_expired` stays false — hence `refresh_if_needed`
spawns no second worker — for exactly the 10 seconds following the
failure (for every `ttl`), not for `ttl − 10` seconds. -/
theorem cache_throttle_after_failure (p : LiveProvider) (t0 t : Int)
    (h1 : t0 ≤ t) (h2 : t ≤ t0 + 10) :
    (LiveProvider.fetch_live_data p t0 none).cache.data = p.cache.data ∧
    (LiveProvider.fetch_live_data p t0 none).cache.is_expired t = false ∧
    (LiveProvider.refresh_if_needed (LiveProvider.fetch_live_data p t0 none) t).2 =
      false := by
  have hexp : (LiveProvider.fetch_live_data p t0 none).cache.is_expired t = false := by
    simp only [LiveProvider.fetch_live_data, CompletionCache.is_expired,
      decide_eq_false_iff_not, not_lt]
    omega
  refine ⟨rfl, hexp, ?_⟩
  simp [LiveProvider.refresh_if_needed, hexp]

/-- C2 counterexample: with the default `ttl = 30`, eleven seconds after a
failed fetch — well inside the `ttl − 10 = 20` second window the claim
promises — the cache already reports expiry and `refresh_if_needed`
spawns a second background fetch. -/
theorem cache_throttle_counterexample :
    (LiveProvider.fetch_live_data {} 0 none).cache.ttl_seconds = 30 ∧
    (LiveProvider.fetch_live_data {} 0 none).cache.data = ({} : LiveProvider).cache.data ∧
    ((0 : Int) ≤ 11 ∧ (11 : Int) ≤ 0 + (30 - 10)) ∧
    (LiveProvider.fetch_live_data {} 0 none).cache.is_expired 11 = true ∧
    (LiveProvider.refresh_if_needed (LiveProvider.fetch_live_data {} 0 none) 11).2 =
      true := by decide

/-- Witness for `cache_throttle_after_failure` at `t0 = 0`, `t = 10`. -/
theorem cache_throttle_after_failure_witness :
    (LiveProvider.fetch_live_data {} 0 none).cache.data = ({} : LiveProvider).cache.data ∧
    (LiveProvider.fetch_live_data {} 0 none).cache.is_expired 10 = false ∧
    (LiveProvider.refresh_if_needed (LiveProvider.fetch_live_data {} 0 none) 10).2 =
      false :=
  cache_throttle_after_failure {} 0 10 (by decide) (by decide)

/-! ## C9: single-word kubectl completion -/

/-- C9: for every completer state, completing the single word "kubectl"
yields exactly the kubectl verb table keys — so no resource name, flag,
or history-derived string can appear at word count 1. -/
theorem complete_kubectl_word1_verbs (ctx : CommandContext) :
    (getCompletions ctx "kubectl").map Compl.text =
      kubectlCompleterCommands.map Prod.fst := rfl

/-! ## List helpers for the store proofs -/

theorem updateFirst_append_of_forall (l1 l2 : List CommandEntry) (T : String)
    (f : CommandEntry → CommandEntry) (h : ∀ e ∈ l1, ¬(e.command = T)) :
    updateFirst (l1 ++ l2) T f = l1 ++ updateFirst l2 T f := by
  induction l1 with
  | nil => rfl
  | cons x rest ih =>
    have hx := h x (List.mem_cons_self _ _)
    simp only [List.cons_append, updateFirst, if_neg hx, List.append_eq]
    rw [ih (fun e he => h e (List.mem_cons_of_mem _ he))]

theorem pyOr_some_of_ne {s : String} (x : String) (h : s ≠ "") :
    pyOr (some s) x = s := by simp [pyOr, h]

/-! ## C3: adding the same text twice -/

/-- C3: in any context `(c, n)` holding no record for text `T`, adding `T`
with description `D` and then adding `T` again leaves exactly one record
for `T` there, with `usage_count` 1 after the first call and 2 after the
second, the description `D` set by the first call surviving the second. -/
theorem add_twice_idempotent (m : HistoryManager) (now1 now2 T D c n : String)
    (hc : c ≠ "") (hn : n ≠ "")
    (h0 : (ctxCmds m.commands_by_context c n).find? (fun e => e.command = T) = none) :
    ((ctxCmds (m.addCommand now1 T D [] (some c) (some n)).commands_by_context
          c n).filter (fun e => e.command = T)).map
        (fun e => (e.usage_count, e.description)) = [(1, D)] ∧
    ((ctxCmds ((m.addCommand now1 T D [] (some c) (some n)).addCommand now2 T "" []
          (some c) (some n)).commands_by_context c n).filter
        (fun e => e.command = T)).map
        (fun e => (e.usage_count, e.description)) = [(2, D)] := by
  have hpc : ∀ x, pyOr (some c) x = c := fun x => pyOr_some_of_ne x hc
  have hpn : ∀ x, pyOr (some n) x = n := fun x => pyOr_some_of_ne x hn
  have hall : ∀ e ∈ ctxCmds m.commands_by_context c n, ¬(e.command = T) := by
    intro e he
    simpa using List.find?_eq_none.mp h0 e he
  have hfilter : (ctxCmds m.commands_by_context c n).filter
      (fun e => e.command = T) = [] :=
    List.filter_eq_nil_iff.mpr (fun a ha => by simpa using hall a ha)
  have step1 : ctxCmds (m.addCommand now1 T D [] (some c)
        (some n)).commands_by_context c n =
      ctxCmds m.commands_by_context c n ++
        [newEntry now1 T (detectCommandType T) D [] c n] := by
    rw [ctxCmds_addCommand, hpc, hpn, if_pos (⟨rfl, rfl⟩ : c = c ∧ n = n)]
    simp [addResult, h0]
  have hfind2 : (ctxCmds m.commands_by_context c n ++
        [newEntry now1 T (detectCommandType T) D [] c n]).find?
        (fun e => e.command = T) =
      some (newEntry now1 T (detectCommandType T) D [] c n) := by
    rw [List.find?_append, h0]
    simp [newEntry]
  have step2 : ctxCmds ((m.addCommand now1 T D [] (some c) (some n)).addCommand
        now2 T "" [] (some c) (some n)).commands_by_context c n =
      ctxCmds m.commands_by_context c n ++
        [reAddUpdate now2 "" [] (newEntry now1 T (detectCommandType T) D [] c n)] := by
    rw [ctxCmds_addCommand, hpc, hpn, if_pos (⟨rfl, rfl⟩ : c = c ∧ n = n), step1]
    unfold addResult
    rw [hfind2]
    simp only [Option.isSome_some, if_pos rfl]
    rw [updateFirst_append_of_forall _ _ _ _ hall]
    simp [updateFirst, newEntry]
  constructor
  · rw [step1, List.filter_append, hfilter]
    simp [newEntry]
  · rw [step2, List.filter_append, hfilter]
    simp [newEntry, reAddUpdate]

/-- Witness for `add_twice_idempotent` on an empty store. -/
theorem add_twice_idempotent_witness :
    ((ctxCmds ((({} : HistoryManager).addCommand "t1" "kubectl get pods" "list pods"
          [] (some "default") (some "default")).addCommand "t2" "kubectl get pods"
          "" [] (some "default") (some "default")).commands_by_context
        "default" "default").filter
      (fun e => e.command = "kubectl get pods")).map
      (fun e => (e.usage_count, e.description)) = [(2, "list pods")] :=
  (add_twice_idempotent {} "t1" "t2" "kubectl get pods" "list pods" "default"
    "default" (by decide) (by decide) (by decide)).2

/-! ## C5: context isolation -/

/-- C5: adding a command text in context `(ca, na)` leaves it invisible to
`get_all` evaluated in a different context `(cb, nb)` that held no record
with that text. -/
theorem context_isolation (m : HistoryManager) (now T desc : String)
    (tags : List String) (ca na cb nb : String) (hca : ca ≠ "") (hna : na ≠ "")
    (hcb : cb ≠ "") (hnb : nb ≠ "") (hAB : ¬(cb = ca ∧ nb = na))
    (h0 : ∀ e ∈ ctxCmds m.commands_by_context cb nb, e.command ≠ T) :
    ((HistoryManager.getAllCommands
        ((m.addCommand now T desc tags (some ca) (some na)).setContext cb nb)).1.filter
      (fun e => e.command = T)) = [] := by
  have hpc : ∀ x, pyOr (some ca) x = ca := fun x => pyOr_some_of_ne x hca
  have hpn : ∀ x, pyOr (some na) x = na := fun x => pyOr_some_of_ne x hna
  refine List.filter_eq_nil_iff.mpr ?_
  intro e he
  simp only [HistoryManager.getAllCommands, HistoryManager.getCurrentContextCommands,
    HistoryManager.setContext, if_neg hcb, if_neg hnb] at he
  rw [ctxGet_fst, ctxCmds_addCommand, hpc, hpn, if_neg hAB] at he
  simpa using h0 e he

/-- Witness for `context_isolation` on an empty store. -/
theorem context_isolation_witness :
    ((HistoryManager.getAllCommands
        ((({} : HistoryManager).addCommand "t1" "kubectl get pods" "" []
          (some "prod") (some "web")).setContext "dev" "web")).1.filter
      (fun e => e.command = "kubectl get pods")) = [] :=
  context_isolation {} "t1" "kubectl get pods" "" [] "prod" "web" "dev" "web"
    (by decide) (by decide) (by decide) (by decide) (by decide) (by decide)

/-! ## C10: reads materialise their context partition -/

/-- C10: a read-only query (`get_all`, `get_frequent`, `get_recent`, or
`search`) issued after switching to a never-touched context inserts an
empty partition for that context, so `context_summary()` afterwards
reports the context with count 0 — reads are not effect-free. -/
theorem reads_materialise_partition (m : HistoryManager) (c n q : String)
    (lim : Nat) (hc : c ≠ "") (hn : n ≠ "")
    (h0 : dictGet2 m.commands_by_context c n = none) :
    dictGet2 (HistoryManager.getAllCommands
        (m.setContext c n)).2.commands_by_context c n = some [] ∧
    summaryLookup (HistoryManager.getContextSummary
        (HistoryManager.getAllCommands (m.setContext c n)).2) c n = some 0 ∧
    summaryLookup (HistoryManager.getContextSummary
        (HistoryManager.getFrequentCommands (m.setContext c n) lim).2) c n = some 0 ∧
    summaryLookup (HistoryManager.getContextSummary
        (HistoryManager.getRecentCommands (m.setContext c n) lim).2) c n = some 0 ∧
    summaryLookup (HistoryManager.getContextSummary
        (HistoryManager.searchCommands (m.setContext c n) q).2) c n = some 0 := by
  have hcmds : ctxCmds m.commands_by_context c n = [] := by
    unfold ctxCmds
    rw [h0]
    rfl
  have hviv : dictGet2 (HistoryManager.getAllCommands
      (m.setContext c n)).2.commands_by_context c n = some [] := by
    simp only [HistoryManager.getAllCommands, HistoryManager.getCurrentContextCommands,
      HistoryManager.setContext, if_neg hc, if_neg hn]
    rw [dictGet2_ctxGet_snd, if_pos (⟨rfl, rfl⟩ : c = c ∧ n = n), hcmds]
  have key : summaryLookup (HistoryManager.getContextSummary
      (HistoryManager.getAllCommands (m.setContext c n)).2) c n = some 0 := by
    rw [summaryLookup_getContextSummary, hviv]
    rfl
  exact ⟨hviv, key, key, key, key⟩

/-- Witness for `reads_materialise_partition` on an empty store. -/
theorem reads_materialise_partition_witness :
    summaryLookup (HistoryManager.getContextSummary
        (HistoryManager.getAllCommands
          (({} : HistoryManager).setContext "c1" "n1")).2) "c1" "n1" = some 0 :=
  (reads_materialise_partition {} "c1" "n1" "query" 5 (by decide) (by decide)
    (by decide)).2.1

/-! ## Membership lemmas for `allEntriesC` -/

theorem mem_allEntriesC {e : CommandEntry} {m : CtxMap} :
    e ∈ allEntriesC m ↔ ∃ p ∈ m, ∃ q ∈ p.2, e ∈ q.2 := by
  simp [allEntriesC, List.mem_flatMap]

theorem mem_of_mem_ctxCmds {e : CommandEntry} {m : CtxMap} {c n : String}
    (h : e ∈ ctxCmds m c n) : e ∈ allEntriesC m := by
  unfold ctxCmds dictGet2 at h
  cases h1 : dictGet m c with
  | none => rw [h1] at h; simp at h
  | some i =>
    rw [h1] at h
    simp only [Option.some_bind] at h
    cases h2 : dictGet i n with
    | none => rw [h2] at h; simp at h
    | some l =>
      rw [h2] at h
      simp only [Option.getD_some] at h
      exact mem_allEntriesC.mpr ⟨(c, i), dictGet_mem h1, (n, l), dictGet_mem h2, h⟩

theorem mem_allEntriesC_ctxGet_snd {e : CommandEntry} {m : CtxMap} {c n : String}
    (h : e ∈ allEntriesC (ctxGet m c n).2) : e ∈ allEntriesC m := by
  obtain ⟨p, hp, q, hq, he⟩ := mem_allEntriesC.mp h
  unfold ctxGet at hp
  rcases mem_dictSet hp with rfl | hp'
  · rcases mem_ddGet_snd hq with hq' | rfl
    · rw [ddGet_fst] at hq'
      cases h1 : dictGet m c with
      | none => rw [h1] at hq'; simp at hq'
      | some i =>
        rw [h1] at hq'
        exact mem_allEntriesC.mpr ⟨(c, i), dictGet_mem h1, q, hq', he⟩
    · simp at he
  · rcases mem_ddGet_snd hp' with hp2 | rfl
    · exact mem_allEntriesC.mpr ⟨p, hp2, q, hq, he⟩
    · simp at hq

theorem mem_allEntriesC_ctxSet {e : CommandEntry} {m : CtxMap} {c n : String}
    {v : List CommandEntry} (h : e ∈ allEntriesC (ctxSet m c n v)) :
    e ∈ v ∨ e ∈ allEntriesC m := by
  obtain ⟨p, hp, q, hq, he⟩ := mem_allEntriesC.mp h
  unfold ctxSet at hp
  rcases mem_dictSet hp with rfl | hp'
  · rcases mem_dictSet hq with rfl | hq'
    · exact Or.inl he
    · rw [ddGet_fst] at hq'
      cases h1 : dictGet m c with
      | none => rw [h1] at hq'; simp at hq'
      | some i =>
        rw [h1] at hq'
        exact Or.inr (mem_allEntriesC.mpr ⟨(c, i), dictGet_mem h1, q, hq', he⟩)
  · rcases mem_ddGet_snd hp' with hp2 | rfl
    · exact Or.inr (mem_allEntriesC.mpr ⟨p, hp2, q, hq, he⟩)
    · simp at hq

theorem mem_updateFirst {e : CommandEntry} {l : List CommandEntry} {T : String}
    {f : CommandEntry → CommandEntry} (h : e ∈ updateFirst l T f) :
    e ∈ l ∨ ∃ x ∈ l, e = f x := by
  induction l with
  | nil => simp [updateFirst] at h
  | cons x rest ih =>
    by_cases hx : x.command = T
    · simp only [updateFirst, if_pos hx] at h
      rcases List.mem_cons.mp h with rfl | h'
      · exact Or.inr ⟨x, List.mem_cons_self _ _, rfl⟩
      · exact Or.inl (List.mem_cons_of_mem _ h')
    · simp only [updateFirst, if_neg hx] at h
      rcases List.mem_cons.mp h with rfl | h'
      · exact Or.inl (List.mem_cons_self _ _)
      · rcases ih h' with h1 | ⟨y, hy, rfl⟩
        · exact Or.inl (List.mem_cons_of_mem _ h1)
        · exact Or.inr ⟨y, List.mem_cons_of_mem _ hy, rfl⟩

/-! ## C7: the `usage_count ≥ 1` invariant -/

/-- C7 (amended): `add_command` establishes and preserves
`usage_count ≥ 1` — a fresh record starts at 1 and a re-add increments
and never resets — but loading a persisted file performs no
normalisation at all, so a stored entry omitting `usage_count` receives
the dataclass default 0 (see the counterexample). -/
theorem usage_count_ge_one_add (m : HistoryManager)
    (now command description : String) (tags : List String)
    (cluster ns : Option String)
    (h : ∀ e ∈ allEntries m, 1 ≤ e.usage_count) :
    (allEntries (m.addCommand now command description tags cluster ns)).all
      (fun e => 1 ≤ e.usage_count) = true := by
  rw [List.all_eq_true]
  intro e he
  simp only [decide_eq_true_eq]
  simp only [allEntries, HistoryManager.addCommand] at he
  rcases mem_allEntriesC_ctxSet he with hin | hold
  · rw [ctxGet_fst] at hin
    unfold addResult at hin
    by_cases hf : ((ctxCmds m.commands_by_context (pyOr cluster m.current_cluster)
        (pyOr ns m.current_namespace)).find?
        (fun c => c.command = command)).isSome
    · rw [if_pos hf] at hin
      rcases mem_updateFirst hin with h1 | ⟨x, hx, rfl⟩
      · exact h e (mem_of_mem_ctxCmds h1)
      · have := h x (mem_of_mem_ctxCmds hx)
        simp only [reAddUpdate]
        omega
    · rw [if_neg hf] at hin
      rcases List.mem_append.mp hin with h1 | h1
      · exact h e (mem_of_mem_ctxCmds h1)
      · simp only [List.mem_singleton] at h1
        subst h1
        simp [newEntry]
  · exact h e (mem_allEntriesC_ctxGet_snd hold)

/-- C7 counterexample: loading a partitioned backing file whose entry
omits `usage_count` produces a stored record with `usage_count = 0`,
violating the claimed invariant. -/
theorem usage_count_load_counterexample :
    (ctxCmds (loadHistory
        { commands_by_context := [("default", [("default",
            [{ command := some "kubectl get pods",
               command_type := some "kubectl", description := some "",
               cluster := some "default", ns := some "default" }])])],
          commands := [] }).commands_by_context "default" "default").map
      CommandEntry.usage_count = [0] := by decide

/-- Witness for `usage_count_ge_one_add` on an empty store. -/
theorem usage_count_ge_one_add_witness :
    (allEntries (({} : HistoryManager).addCommand "t1" "kubectl get pods" "" []
        none none)).all (fun e => 1 ≤ e.usage_count) = true :=
  usage_count_ge_one_add {} "t1" "kubectl get pods" "" [] none none (by decide)

/-! ## C8: tag handling on add -/

theorem find?_updateFirst (l : List CommandEntry) (T : String)
    (f : CommandEntry → CommandEntry) (hf : ∀ x, (f x).command = x.command) :
    (updateFirst l T f).find? (fun e => e.command = T) =
      (l.find? (fun e => e.command = T)).map f := by
  induction l with
  | nil => rfl
  | cons x rest ih =>
    by_cases hx : x.command = T
    · simp only [updateFirst, if_pos hx]
      rw [List.find?_cons_of_pos _ (by simp [hf, hx]),
        List.find?_cons_of_pos _ (by simp [hx])]
      rfl
    · simp only [updateFirst, if_neg hx]
      rw [List.find?_cons_of_neg _ (by simp [hx]),
        List.find?_cons_of_neg _ (by simp [hx]), ih]

/-- C8 (amended): a fresh record stores the supplied tag list verbatim —
the code performs no de-duplication within it (see the counterexample) —
while re-adding an existing text appends exactly those supplied tags not
already present, preserving order; when both the existing and the
supplied lists are duplicate-free the resulting list is duplicate-free. -/
theorem tags_on_add :
    (∀ (m : HistoryManager) (now T D c n : String) (S : List String),
      c ≠ "" → n ≠ "" →
      (ctxCmds m.commands_by_context c n).find? (fun e => e.command = T) = none →
      (ctxCmds (m.addCommand now T D S (some c) (some n)).commands_by_context
          c n).find? (fun e => e.command = T) =
        some (newEntry now T (detectCommandType T) D S c n)) ∧
    (∀ (m : HistoryManager) (now T D c n : String) (S : List String)
      (e0 : CommandEntry),
      c ≠ "" → n ≠ "" →
      (ctxCmds m.commands_by_context c n).find? (fun e => e.command = T) = some e0 →
      ((ctxCmds (m.addCommand now T D S (some c) (some n)).commands_by_context
          c n).find? (fun e => e.command = T) = some (reAddUpdate now D S e0) ∧
       (reAddUpdate now D S e0).tags =
         e0.tags ++ S.filter (fun t => t ∉ e0.tags) ∧
       (e0.tags.Nodup → S.Nodup → (reAddUpdate now D S e0).tags.Nodup))) := by
  constructor
  · intro m now T D c n S hc hn h0
    rw [ctxCmds_addCommand, pyOr_some_of_ne _ hc, pyOr_some_of_ne _ hn,
      if_pos (⟨rfl, rfl⟩ : c = c ∧ n = n)]
    unfold addResult
    rw [h0]
    simp only [Option.isSome_none, Bool.false_eq_true, if_false]
    rw [List.find?_append, h0]
    simp [newEntry]
  · intro m now T D c n S e0 hc hn h0
    refine ⟨?_, rfl, ?_⟩
    · rw [ctxCmds_addCommand, pyOr_some_of_ne _ hc, pyOr_some_of_ne _ hn,
        if_pos (⟨rfl, rfl⟩ : c = c ∧ n = n)]
      unfold addResult
      rw [h0]
      simp only [Option.isSome_some, ite_true]
      rw [find?_updateFirst _ _ (reAddUpdate now D S) (fun x => rfl), h0]
      rfl
    · intro h1 h2
      simp only [reAddUpdate]
      rw [List.nodup_append]
      refine ⟨h1, h2.filter _, ?_⟩
      intro a ha ha'
      have := (List.mem_filter.mp ha').2
      simp only [decide_not, Bool.not_eq_eq_eq_not, Bool.not_true,
        decide_eq_false_iff_not] at this
      exact this ha

/-- C8 counterexample: the claim says `add` de-duplicates the supplied
tags when creating a record; adding with tags `["a", "a"]` stores the
duplicate pair verbatim. -/
theorem tags_dedup_counterexample :
    (ctxCmds (({} : HistoryManager).addCommand "t1" "kubectl get pods" ""
        ["a", "a"] none none).commands_by_context "default" "default").map
      CommandEntry.tags = [["a", "a"]] := by decide

/-- Witness for `tags_on_add`: a fresh add stores the tags, and a re-add
on a one-record store unions duplicate-free tag lists without
duplicates. -/
theorem tags_on_add_witness :
    (ctxCmds (({} : HistoryManager).addCommand "t1" "helm list" "" ["x"]
        (some "default") (some "default")).commands_by_context
      "default" "default").find? (fun e => e.command = "helm list") =
      some (newEntry "t1" "helm list" (detectCommandType "helm list") "" ["x"]
        "default" "default") ∧
    (reAddUpdate "t2" "" ["a", "b"]
        (newEntry "t1" "helm list" (detectCommandType "helm list") "" ["a"]
          "default" "default")).tags.Nodup :=
  ⟨tags_on_add.1 {} "t1" "helm list" "" "default" "default" ["x"]
      (by decide) (by decide) (by decide),
   (tags_on_add.2 (({} : HistoryManager).addCommand "t1" "helm list" "" ["a"]
        (some "default") (some "default")) "t2" "helm list" "" "default" "default"
      ["a", "b"]
      (newEntry "t1" "helm list" (detectCommandType "helm list") "" ["a"]
        "default" "default")
      (by decide) (by decide) (by decide)).2.2 (by decide) (by decide)⟩

/-! ## C4: legacy migration -/

theorem mkEntry_some_fields {d : EntryData} {e : CommandEntry}
    (h : mkEntry d = some e) : d.cluster = some e.cluster ∧ d.ns = some e.ns := by
  unfold mkEntry at h
  cases hc : d.command <;> rw [hc] at h
  · simp at h
  cases ht : d.command_type <;> rw [ht] at h
  · simp at h
  cases hd : d.description <;> rw [hd] at h
  · simp at h
  cases hcl : d.cluster <;> rw [hcl] at h
  · simp at h
  cases hns : d.ns <;> rw [hns] at h
  · simp at h
  simp at h
  subst h
  exact ⟨rfl, rfl⟩

/-- Appending a legacy record that landed in the default context keeps the
store in the single-partition shape. -/
theorem ctxAppend_default_shape (es : List CommandEntry) (e : CommandEntry) :
    ctxAppend [("default", [("default", es)])] "default" "default" e =
      [("default", [("default", es ++ [e])])] := by
  simp [ctxAppend, ctxGet, ctxSet, ddGet, dictGet, dictSet]

theorem ctxAppend_empty_shape (e : CommandEntry) :
    ctxAppend [] "default" "default" e = [("default", [("default", [e])])] := by
  simp [ctxAppend, ctxGet, ctxSet, ddGet, dictGet, dictSet]

theorem loadLegacy_from_default_shape (l : List EntryData)
    (h : ∀ d ∈ l, d.cluster = none ∧ d.ns = none) (es0 : List CommandEntry) :
    loadLegacy [("default", [("default", es0)])] l =
      (mapMEntries (l.map legacyWithDefaults)).map
        (fun es => [("default", [("default", es0 ++ es)])]) := by
  induction l generalizing es0 with
  | nil => simp [loadLegacy, mapMEntries]
  | cons d l' ih =>
    cases he : mkEntry (legacyWithDefaults d) with
    | none => simp [loadLegacy, he, mapMEntries]
    | some e =>
      have hec : e.cluster = "default" := by
        have h1 := (mkEntry_some_fields he).1
        simp [legacyWithDefaults, (h d (List.mem_cons_self _ _)).1] at h1
        exact h1.symm
      have hen : e.ns = "default" := by
        have h1 := (mkEntry_some_fields he).2
        simp [legacyWithDefaults, (h d (List.mem_cons_self _ _)).2] at h1
        exact h1.symm
      rw [loadLegacy]
      simp only [he, Option.bind_eq_bind, Option.some_bind]
      rw [hec, hen, ctxAppend_default_shape,
        ih (fun x hx => h x (List.mem_cons_of_mem _ hx)) (es0 ++ [e])]
      simp only [List.map_cons, mapMEntries, he, Option.bind_eq_bind, Option.some_bind]
      cases hm : mapMEntries (l'.map legacyWithDefaults) <;>
        simp [hm, List.append_assoc]

theorem loadLegacy_empty_base (l : List EntryData)
    (h : ∀ d ∈ l, d.cluster = none ∧ d.ns = none) :
    loadLegacy [] l =
      (mapMEntries (l.map legacyWithDefaults)).map
        (fun es => if es.isEmpty then ([] : CtxMap)
          else [("default", [("default", es)])]) := by
  cases l with
  | nil => simp [loadLegacy, mapMEntries]
  | cons d l' =>
    cases he : mkEntry (legacyWithDefaults d) with
    | none => simp [loadLegacy, he, mapMEntries]
    | some e =>
      have hec : e.cluster = "default" := by
        have h1 := (mkEntry_some_fields he).1
        simp [legacyWithDefaults, (h d (List.mem_cons_self _ _)).1] at h1
        exact h1.symm
      have hen : e.ns = "default" := by
        have h1 := (mkEntry_some_fields he).2
        simp [legacyWithDefaults, (h d (List.mem_cons_self _ _)).2] at h1
        exact h1.symm
      rw [loadLegacy]
      simp only [he, Option.bind_eq_bind, Option.some_bind]
      rw [hec, hen, ctxAppend_empty_shape,
        loadLegacy_from_default_shape l'
          (fun x hx => h x (List.mem_cons_of_mem _ hx)) [e]]
      simp only [List.map_cons, mapMEntries, he, Option.bind_eq_bind, Option.some_bind]
      cases hm : mapMEntries (l'.map legacyWithDefaults) <;> simp [hm]

/-- C4 (amended): loading a legacy flat file places a record under the
`("default", "default")` context exactly when the record carries no
cluster/namespace fields of its own (records carrying them keep them —
see the counterexample); when every record rebuilds, the default
partition holds precisely the migrated records in order, no other
partition is created, and every subsequent save writes only the
partitioned format (no legacy `commands` key). -/
theorem legacy_migration (f : HistoryFile)
    (h1 : f.commands_by_context = [])
    (h2 : ∀ d ∈ f.commands, d.cluster = none ∧ d.ns = none) :
    (∀ es, mapMEntries (f.commands.map legacyWithDefaults) = some es →
      ctxCmds (loadHistory f).commands_by_context "default" "default" = es) ∧
    (∀ c n : String, ¬(c = "default" ∧ n = "default") →
      ctxCmds (loadHistory f).commands_by_context c n = []) ∧
    (saveHistory (loadHistory f)).commands = [] := by
  have hopt : (do loadLegacy (← loadPartitioned f.commands_by_context) f.commands :
      Option CtxMap) = loadLegacy [] f.commands := by
    rw [h1]
    rfl
  have hcbc : (loadHistory f).commands_by_context =
      ((mapMEntries (f.commands.map legacyWithDefaults)).map
        (fun es => if es.isEmpty then ([] : CtxMap)
          else [("default", [("default", es)])])).getD [] := by
    unfold loadHistory
    rw [hopt, loadLegacy_empty_base f.commands h2]
    cases hm : mapMEntries (f.commands.map legacyWithDefaults) with
    | none => rfl
    | some es => rfl
  refine ⟨?_, ?_, ?_⟩
  · intro es hes
    rw [hcbc, hes]
    cases es with
    | nil => rfl
    | cons e es' => simp [ctxCmds, dictGet2, dictGet]
  · intro c n hcn
    rw [hcbc]
    cases hm : mapMEntries (f.commands.map legacyWithDefaults) with
    | none => rfl
    | some es =>
      cases es with
      | nil => rfl
      | cons e es' =>
        by_cases hc : c = "default"
        · subst hc
          have hn : n ≠ "default" := fun hn => hcn ⟨rfl, hn⟩
          simp [ctxCmds, dictGet2, dictGet, Ne.symm hn]
        · simp [ctxCmds, dictGet2, dictGet, Ne.symm hc]
  · rfl

/-- C4 counterexample: a flat-format file whose single record carries its
own `cluster`/`namespace` keys is loaded under that context, not under
`("default", "default")` as the claim states. -/
theorem legacy_migration_counterexample :
    (ctxCmds (loadHistory
        { commands_by_context := [],
          commands := [{ command := some "c1", command_type := some "kubectl",
                         description := some "", cluster := some "prod",
                         ns := some "ns1" }] }).commands_by_context
        "prod" "ns1").map CommandEntry.command = ["c1"] ∧
    ctxCmds (loadHistory
        { commands_by_context := [],
          commands := [{ command := some "c1", command_type := some "kubectl",
                         description := some "", cluster := some "prod",
                         ns := some "ns1" }] }).commands_by_context
      "default" "default" = [] := by decide

/-- Witness for `legacy_migration` on a one-record legacy file. -/
theorem legacy_migration_witness :
    ctxCmds (loadHistory
        { commands_by_context := [],
          commands := [{ command := some "c1", command_type := some "kubectl",
                         description := some "" }] }).commands_by_context
      "default" "default" =
      [{ command := "c1", command_type := "kubectl", description := "",
         cluster := "default", ns := "default", usage_count := 0,
         last_used := none, tags := [] }] ∧
    (saveHistory (loadHistory
        { commands_by_context := [],
          commands := [{ command := some "c1", command_type := some "kubectl",
                         description := some "" }] })).commands = [] :=
  ⟨(legacy_migration _ rfl (by decide)).1
      [{ command := "c1", command_type := "kubectl", description := "",
         cluster := "default", ns := "default", usage_count := 0,
         last_used := none, tags := [] }] (by decide),
   (legacy_migration
      { commands_by_context := [],
        commands := [{ command := some "c1", command_type := some "kubectl",
                       description := some "" }] } rfl (by decide)).2.2⟩

/-! ## C6: save/load round trip -/

theorem dictSet_eq_append_of_none {α : Type} {l : List (String × α)} {k : String}
    (v : α) (h : dictGet l k = none) : dictSet l k v = l ++ [(k, v)] := by
  induction l with
  | nil => rfl
  | cons p rest ih =>
    obtain ⟨k0, v0⟩ := p
    by_cases h0 : k0 = k
    · simp [dictGet, h0] at h
    · simp only [dictGet, h0, if_neg h0] at h ⊢
      simp [dictSet, h0, ih (by simpa using h)]

theorem dictSet_dictSet {α : Type} (l : List (String × α)) (k : String) (v w : α) :
    dictSet (dictSet l k v) k w = dictSet l k w := by
  induction l with
  | nil => simp [dictSet]
  | cons p rest ih =>
    obtain ⟨k0, v0⟩ := p
    by_cases h0 : k0 = k <;> simp [dictSet, h0, ih]

theorem ddGet_of_some {α : Type} {l : List (String × α)} {k : String} {v : α}
    (d : α) (h : dictGet l k = some v) : ddGet l k d = (v, l) := by
  unfold ddGet
  rw [h]

theorem ctxSet_of_some {m : CtxMap} {c : String}
    {i : List (String × List CommandEntry)} (n : String) (v : List CommandEntry)
    (h : dictGet m c = some i) : ctxSet m c n v = dictSet m c (dictSet i n v) := by
  unfold ctxSet
  rw [ddGet_of_some _ h]

theorem ctxSet_of_none {m : CtxMap} {c : String} (n : String) (v : List CommandEntry)
    (h : dictGet m c = none) : ctxSet m c n v = m ++ [(c, [(n, v)])] := by
  unfold ctxSet ddGet
  rw [h]
  simp only [dictSet]
  exact dictSet_append_last _ _ h

theorem mkEntry_entryToData (e : CommandEntry) : mkEntry (entryToData e) = some e :=
  rfl

theorem mapMEntries_map_entryToData (l : List CommandEntry) :
    mapMEntries (l.map entryToData) = some l := by
  induction l with
  | nil => rfl
  | cons e l' ih => simp [mapMEntries, mkEntry_entryToData, ih]

theorem loadPartitionedInner_saved (c : String)
    (ns : List (String × List CommandEntry)) :
    ∀ (acc : CtxMap) (built : List (String × List CommandEntry)),
      dictGet acc c = some built →
      (∀ q ∈ ns, dictGet built q.1 = none) →
      (ns.map Prod.fst).Nodup →
      loadPartitionedInner c acc
        (ns.map (fun q => (q.1, q.2.map entryToData))) =
        some (dictSet acc c (built ++ ns)) := by
  induction ns with
  | nil =>
    intro acc built hacc _ _
    simp [loadPartitionedInner, dictSet_eq_self_of_dictGet hacc]
  | cons q qs ih =>
    intro acc built hacc hfresh hnd
    obtain ⟨n0, v0⟩ := q
    simp only [List.map_cons, loadPartitionedInner, mapMEntries_map_entryToData,
      Option.bind_eq_bind, Option.some_bind]
    rw [ctxSet_of_some _ _ hacc,
      dictSet_eq_append_of_none _ (hfresh (n0, v0) (List.mem_cons_self _ _))]
    rw [ih (dictSet acc c (built ++ [(n0, v0)])) (built ++ [(n0, v0)])
      (dictGet_dictSet_self _ _ _)
      (fun q' hq' => by
        have h1 := hfresh q' (List.mem_cons_of_mem _ hq')
        have h2 : q'.1 ≠ n0 := by
          intro hq
          have := (List.nodup_cons.mp hnd).1
          exact this (by simpa [hq] using List.mem_map_of_mem Prod.fst hq')
        rw [dictGet_append_of_none _ h1]
        simp [dictGet, Ne.symm h2])
      (List.nodup_cons.mp hnd).2]
    rw [dictSet_dictSet, List.append_assoc]
    rfl

theorem loadPartitionedOuter_saved (l : CtxMap) :
    ∀ (acc : CtxMap),
      (∀ p ∈ l, dictGet acc p.1 = none) →
      (l.map Prod.fst).Nodup →
      (∀ p ∈ l, (p.2.map Prod.fst).Nodup ∧ p.2 ≠ []) →
      loadPartitionedOuter acc
        (l.map (fun p => (p.1, p.2.map (fun q => (q.1, q.2.map entryToData))))) =
        some (acc ++ l) := by
  induction l with
  | nil => intro acc _ _ _; simp [loadPartitionedOuter]
  | cons p l' ih =>
    intro acc hfresh hnd hin
    obtain ⟨c, ns⟩ := p
    obtain ⟨hns_nd, hns_ne⟩ := hin (c, ns) (List.mem_cons_self _ _)
    have hacc : dictGet acc c = none := hfresh (c, ns) (List.mem_cons_self _ _)
    cases ns with
    | nil => exact absurd rfl hns_ne
    | cons q0 qs =>
      obtain ⟨n0, v0⟩ := q0
      simp only [List.map_cons, loadPartitionedOuter, loadPartitionedInner,
        mapMEntries_map_entryToData, Option.bind_eq_bind, Option.some_bind]
      rw [ctxSet_of_none _ _ hacc]
      have hinner := loadPartitionedInner_saved c qs
        (acc ++ [(c, [(n0, v0)])]) [(n0, v0)]
        (by
          rw [dictGet_append_of_none _ hacc]
          simp [dictGet])
        (fun q' hq' => by
          have h2 : q'.1 ≠ n0 := by
            intro hq
            have := (List.nodup_cons.mp hns_nd).1
            exact this (by simpa [hq] using List.mem_map_of_mem Prod.fst hq')
          simp [dictGet, Ne.symm h2])
        (List.nodup_cons.mp hns_nd).2
      rw [hinner]
      simp only [Option.some_bind]
      rw [dictSet_append_last _ _ hacc]
      simp only [List.singleton_append]
      have houter := ih (acc ++ [(c, (n0, v0) :: qs)])
        (fun p' hp' => by
          have h1 := hfresh p' (List.mem_cons_of_mem _ hp')
          have h2 : p'.1 ≠ c := by
            intro hp
            have := (List.nodup_cons.mp hnd).1
            exact this (by simpa [hp] using List.mem_map_of_mem Prod.fst hp')
          rw [dictGet_append_of_none _ h1]
          simp [dictGet, Ne.symm h2])
        (List.nodup_cons.mp hnd).2
        (fun p' hp' => hin p' (List.mem_cons_of_mem _ hp'))
      rw [houter, List.append_assoc]
      rfl

/-- C6: serialising the store and loading the result reproduces the
context table exactly — in particular, every context holds an equal set
of records. -/
theorem save_load_roundtrip (m : HistoryManager)
    (hwf : wfCtxMap m.commands_by_context) :
    (loadHistory (saveHistory m)).commands_by_context = m.commands_by_context := by
  obtain ⟨hnd, hin⟩ := hwf
  have hpart : loadPartitionedOuter ([] : CtxMap)
      (m.commands_by_context.map
        (fun p => (p.1, p.2.map (fun q => (q.1, q.2.map entryToData))))) =
      some m.commands_by_context := by
    simpa using loadPartitionedOuter_saved m.commands_by_context []
      (fun p _ => rfl) hnd hin
  unfold loadHistory
  simp only [saveHistory, loadPartitioned]
  rw [hpart]
  rfl

/-- Witness for `save_load_roundtrip` on a one-record store. -/
theorem save_load_roundtrip_witness :
    (loadHistory (saveHistory
        { commands_by_context := [("default", [("default",
            [{ command := "kubectl get pods", command_type := "kubectl",
               description := "", cluster := "default", ns := "default",
               usage_count := 3, last_used := some "t1",
               tags := ["a"] }])])] })).commands_by_context =
      ({ commands_by_context := [("default", [("default",
          [{ command := "kubectl get pods", command_type := "kubectl",
             description := "", cluster := "default", ns := "default",
             usage_count := 3, last_used := some "t1",
             tags := ["a"] }])])] } : HistoryManager).commands_by_context :=
  save_load_roundtrip
    { commands_by_context := [("default", [("default",
        [{ command := "kubectl get pods", command_type := "kubectl",
           description := "", cluster := "default", ns := "default",
           usage_count := 3, last_used := some "t1", tags := ["a"] }])])] }
    (by decide)

end Clusterm
